import Mathlib

/-!
Shallow embedding of `projects/snowflake-etl-pipeline/src` (transform.py,
main.py, with the extract/load collaborators abstracted as in the spec).

A pandas `DataFrame` is modelled as a list of column names together with a
list of rows; each cell is a scalar `Value` (string, integer, rational
standing in for float, timestamp, or null/NaN).  Floating point arithmetic
is modelled over `ℚ`, and the numpy `.round(2)` as round-half-to-even over `ℚ`.
-/

set_option autoImplicit false

namespace ETL

/-- A scalar cell value: null (NaN/None), string, integer, rational
(modelling float) or timestamp (`datetime.now()` values). -/
inductive Value where
  | null
  | str (s : String)
  | int (n : ℤ)
  | rat (q : ℚ)
  | timestamp (t : ℕ)
deriving DecidableEq, Repr

/-- One record: the cell values of a row, in column order. -/
abbrev Row := List Value

/-- A pandas DataFrame: ordered column names plus rows of cells.
Well-formedness (each row as long as `cols`) is carried as a hypothesis
where a theorem needs it. -/
structure DataFrame where
  cols : List String
  rows : List Row
deriving DecidableEq, Repr

/-- Truth of `pd.notna` on a single cell. -/
def notNull : Value → Bool
  | .null => false
  | _ => true

/-- Is the cell a Python `str`? -/
def isStr : Value → Bool
  | .str _ => true
  | _ => false

/-- ASCII whitespace stripped by `str.strip()`. -/
def isWs (c : Char) : Bool :=
  c = ' ' ∨ c = '\t' ∨ c = '\n' ∨ c = '\r'

/-- Python `str.strip()` on the character list: drop leading and trailing
whitespace. -/
def trimChars (l : List Char) : List Char :=
  ((l.dropWhile isWs).reverse.dropWhile isWs).reverse

/-- Python `str.strip()`. -/
def strStrip (s : String) : String :=
  ⟨trimChars s.data⟩

/-- Python `str.upper()` on one character (ASCII range, as produced by the
column names of the pipeline): code points 97 to 122 shift down by 32. -/
def upChar (c : Char) : Char :=
  if h : 97 ≤ c.toNat ∧ c.toNat ≤ 122 then Char.ofNatAux (c.toNat - 32)
    (by
      unfold Nat.isValidChar
      omega)
  else c

/-- Python `str.upper()` on a column name. -/
def strUpper (s : String) : String :=
  ⟨s.data.map upChar⟩

/-- The effect of `Series.str.strip()` on one cell of an object-dtype
column: strings are stripped, everything else (null, numbers) becomes
NaN, as the pandas `.str` accessor does. -/
def stripVal : Value → Value
  | .str s => .str (strStrip s)
  | _ => .null

/-- Loop of `drop_duplicates()` keeping the first occurrence of each row. -/
def dropDupsAux : List Row → List Row → List Row
  | _, [] => []
  | seen, r :: rs =>
    if r ∈ seen then dropDupsAux seen rs else r :: dropDupsAux (r :: seen) rs

/-- Effect of `DataFrame.drop_duplicates()` on the rows (keep first occurrence). -/
def dropDuplicates (rows : List Row) : List Row :=
  dropDupsAux [] rows

/-- Column `j` has pandas object dtype: it contains at least one string.
(`select_dtypes(include=[object])` selects exactly those columns for the
frames the pipeline builds.) -/
def objCol (rows : List Row) (j : ℕ) : Bool :=
  rows.any (fun r => isStr (r.getD j .null))

/-- Strip the object-dtype cells of one row, positions numbered from `k`. -/
def stripRowAux (rows : List Row) : ℕ → Row → Row
  | _, [] => []
  | k, v :: vs =>
    (if objCol rows k then stripVal v else v) :: stripRowAux rows (k + 1) vs

/-- The whitespace-stripping loop of `clean_data`: for every object-dtype
column `col`, `df[col] = df[col].str.strip()`. -/
def stripRows (rows : List Row) : List Row :=
  rows.map (stripRowAux rows 0)

/-- Method `DataTransformer.clean_data`: drop duplicate rows, strip whitespace
from string (object-dtype) columns, uppercase the column names. -/
def clean_data (df : DataFrame) : DataFrame :=
  let deduped := dropDuplicates df.rows
  { cols := df.cols.map strUpper
    rows := stripRows deduped }

/-- The errors the pipeline can raise.  All are Python exceptions; the
constructors keep the taxonomy of the spec apart by raise site:
`schemaError` = the `ValueError` of the required-columns check,
`keyError` = pandas `KeyError` on a missing column label,
`configError` = the `ValueError` for an unsupported source type,
`extractError` / `loadError` = failures of the I/O collaborators. -/
inductive PipeError where
  | schemaError (missing : List String)
  | keyError (col : String)
  | configError (sourceType : String)
  | extractError (msg : String)
  | loadError (msg : String)
deriving DecidableEq, Repr

/-- The `rules` dictionary of `validate_data`: each field is `some _`
exactly when the corresponding key is present in the dict. -/
structure Rules where
  required_columns : Option (List String) := none
  not_null_columns : Option (List String) := none
  data_types : Option (List (String × String)) := none
deriving DecidableEq, Repr

/-- Python set difference between the `required_columns` rule and the
schema, `set(required) - set(df.columns)` (a set: order irrelevant, no
repeats). -/
def missingCols (req : List String) (cols : List String) : List String :=
  (req.filter (fun c => ! cols.contains c)).dedup

/-- The cell of row `r` under column label `c` (`df[c]` at that row):
first matching column position. -/
def cellAt (cols : List String) (c : String) (r : Row) : Value :=
  r.getD (cols.indexOf c) .null

/-- The not-null loop of `validate_data`: for each listed column,
`df = df[df[col].notna()]`; looking up a label absent from the frame
raises `KeyError`. -/
def notNullFilter (cols : List String) : List String → List Row →
    Except PipeError (List Row)
  | [], rows => .ok rows
  | c :: cs, rows =>
    if cols.contains c then
      notNullFilter cols cs (rows.filter (fun r => notNull (cellAt cols c r)))
    else
      .error (.keyError c)

/-- The value column under label `c` (`df[c]` as a Series). -/
def getColVals (df : DataFrame) (c : String) : List Value :=
  df.rows.map (cellAt df.cols c)

/-- Column assignment `df[c] = vals` for an existing label `c`. -/
def setColVals (df : DataFrame) (c : String) (vals : List Value) : DataFrame :=
  { cols := df.cols
    rows := List.zipWith (fun r v => r.set (df.cols.indexOf c) v) df.rows vals }

/-- Abstraction of `Series.astype(dtype)`: it is a call into pandas, not code of this
repository, so it is abstracted as a cell-level coercion function `coerce`
(`none` = the cast raises).  `astype` fails or succeeds for the whole
column at once. -/
abbrev CoerceFn := String → Value → Option Value

/-- The data-types loop of `validate_data`: per listed column, try
`df[col] = df[col].astype(dtype)`; any exception (including the
`KeyError` of a missing label) is caught and the frame left unchanged. -/
def applyDtypes (coerce : CoerceFn) : DataFrame → List (String × String) →
    DataFrame
  | df, [] => df
  | df, (c, dtype) :: rest =>
    if df.cols.contains c then
      match (getColVals df c).mapM (coerce dtype) with
      | some vals => applyDtypes coerce (setColVals df c vals) rest
      | none => applyDtypes coerce df rest
    else
      applyDtypes coerce df rest

/-- Block of `validate_data` run when the `required_columns` key is
present:
raise `ValueError` when the missing set is non-empty (Python set
truthiness). -/
def requiredStage (df : DataFrame) :
    Option (List String) → Except PipeError DataFrame
  | none => .ok df
  | some req =>
    if missingCols req df.cols ≠ [] then
      .error (.schemaError (missingCols req df.cols))
    else .ok df

/-- Block of `validate_data` run when the `not_null_columns` key is
present. -/
def nncStage (df : DataFrame) :
    Option (List String) → Except PipeError DataFrame
  | none => .ok df
  | some listed =>
    match notNullFilter df.cols listed df.rows with
    | .ok rows => .ok { cols := df.cols, rows := rows }
    | .error e => .error e

/-- Block of `validate_data` run when the `data_types` key is present. -/
def dtStage (coerce : CoerceFn) (df : DataFrame) :
    Option (List (String × String)) → Except PipeError DataFrame
  | none => .ok df
  | some dts => .ok (applyDtypes coerce df dts)

/-- Method `DataTransformer.validate_data`: required-columns schema check, then
the not-null row filter, then per-column dtype coercion. -/
def validate_data (coerce : CoerceFn) (df : DataFrame) (rules : Rules) :
    Except PipeError DataFrame := do
  let df₁ ← requiredStage df rules.required_columns
  let df₂ ← nncStage df₁ rules.not_null_columns
  dtStage coerce df₂ rules.data_types

/-- Round-half-to-even to an integer (the numpy rounding of `ℚ`-modelled
floats). -/
def rhe (q : ℚ) : ℤ :=
  let f := Rat.floor q
  if q - f < 1/2 then f
  else if 1/2 < q - f then f + 1
  else if 2 ∣ f then f else f + 1

/-- Numpy `.round(2)`: round half-to-even at two decimals. -/
def round2 (q : ℚ) : ℚ :=
  (rhe (q * 100) : ℚ) / 100

/-- Method `DataTransformer._calculate_quality_score`: per row,
`(row.notna().sum() / len(df.columns) * 100).round(2)`. -/
def calculate_quality_score (df : DataFrame) : List Value :=
  df.rows.map (fun r =>
    .rat (round2 ((r.countP notNull : ℚ) / (df.cols.length : ℚ) * 100)))

/-- Column assignment `df[name] = vals`: replace the column if the label exists, else
append it on the right. -/
def addCol (df : DataFrame) (name : String) (vals : List Value) : DataFrame :=
  if df.cols.contains name then setColVals df name vals
  else
    { cols := df.cols ++ [name]
      rows := List.zipWith (fun r v => r ++ [v]) df.rows vals }

/-- Method `DataTransformer.enrich_data`: add `PROCESSED_AT` (the single
`datetime.now()` of the call, `t`), then add `DATA_QUALITY_SCORE`
computed on the frame that already carries `PROCESSED_AT`. -/
def enrich_data (df : DataFrame) (t : ℕ) : DataFrame :=
  let withTs := addCol df "PROCESSED_AT" (df.rows.map (fun _ => .timestamp t))
  addCol withTs "DATA_QUALITY_SCORE" (calculate_quality_score withTs)

/-- The pipeline configuration dictionary (`config` of `ETLPipeline`):
only `required_columns` is read by `run`. -/
structure PipelineConfig where
  required_columns : List String := []
deriving DecidableEq, Repr

/-- The I/O collaborators of the pipeline (extract sources and the
Snowflake sink), abstracted as in the spec: each call either produces a
value or raises. -/
structure Collaborators where
  extractCsv : String → Except PipeError DataFrame
  extractJson : String → Except PipeError DataFrame
  connect : Except PipeError Unit
  getRowCount : String → Except PipeError ℤ
  write : DataFrame → String → Except PipeError Bool

/-- Which extractor method the EXTRACT step selects. -/
inductive ExtractRoute where
  | viaCsv
  | viaJson
deriving DecidableEq, Repr

/-- The source-type dispatch at the head of `ETLPipeline.run`: `csv` and
`json` select an extractor; anything else raises
`ValueError(f"Unsupported source type: ...")` before any collaborator
runs. -/
def extractDispatch (sourceType : String) : Except PipeError ExtractRoute :=
  if sourceType = "csv" then .ok .viaCsv
  else if sourceType = "json" then .ok .viaJson
  else .error (.configError sourceType)

/-- The `validation_rules` dict built inside `ETLPipeline.run`: only the
`not_null_columns` key, set to the configured `required_columns`. -/
def pipelineRules (cfg : PipelineConfig) : Rules :=
  { not_null_columns := some cfg.required_columns }

/-- STEP 3 (LOAD) of `ETLPipeline.run`: connect, probe the initial row
count (a bare `except` turns any failure into 0), write the frame; a
`False` result is only logged, a raise propagates; on success the row
count is probed again for the report. -/
def loadPhase (co : Collaborators) (enriched : DataFrame) (table : String) :
    Except PipeError Unit := do
  co.connect
  let _initial : ℤ :=
    match co.getRowCount table with
    | .ok n => n
    | .error _ => 0
  let success ← co.write enriched table
  if success then do
    let _final ← co.getRowCount table
    pure ()
  else
    pure ()

/-- The observable outcome of one `ETLPipeline.run` call: the exception
that reached the caller (if any), whether an extractor collaborator was
invoked, and whether the `finally` teardown (`loader.disconnect()`) ran. -/
structure RunResult where
  outcome : Option PipeError
  sourceCalled : Bool
  disconnectCalled : Bool
deriving DecidableEq, Repr

/-- Method `ETLPipeline.run`: EXTRACT dispatch, `clean_data`, conditionally
`validate_data` (only when the configured `required_columns` list is
non-empty, Python truthiness), `enrich_data` with the timestamp of the call
`t`, then the LOAD phase; every raise is logged and re-raised, and the
`finally` block always disconnects. -/
def pipelineRun (cfg : PipelineConfig) (co : Collaborators) (coerce : CoerceFn)
    (sourcePath targetTable sourceType : String) (t : ℕ) : RunResult :=
  match extractDispatch sourceType with
  | .error e =>
    { outcome := some e, sourceCalled := false, disconnectCalled := true }
  | .ok route =>
    let body : Except PipeError Unit := do
      let raw ←
        match route with
        | .viaCsv => co.extractCsv sourcePath
        | .viaJson => co.extractJson sourcePath
      let cleaned := clean_data raw
      let validated ←
        if cfg.required_columns ≠ [] then
          validate_data coerce cleaned (pipelineRules cfg)
        else
          .ok cleaned
      let enriched := enrich_data validated t
      loadPhase co enriched targetTable
    { outcome := match body with | .ok _ => none | .error e => some e
      sourceCalled := true
      disconnectCalled := true }

/-! ### Helper lemmas about the validation stage -/

theorem notNullFilter_ok_of_present (cols : List String) (l : List String)
    (rows : List Row) (h : ∀ c ∈ l, cols.contains c) :
    notNullFilter cols l rows =
      .ok (rows.filter (fun r => l.all (fun c => notNull (cellAt cols c r)))) := by
  induction l generalizing rows with
  | nil => simp [notNullFilter]
  | cons c cs ih =>
    rw [notNullFilter, if_pos (h c (by simp))]
    rw [ih _ (fun c hc => h c (by simp [hc]))]
    congr 1
    rw [List.filter_filter]
    apply List.filter_congr
    intro r _
    simp [List.all_cons, Bool.and_comm]

theorem notNullFilter_ok_length (cols : List String) (l : List String)
    (rows rows' : List Row) (h : notNullFilter cols l rows = .ok rows') :
    rows'.length ≤ rows.length := by
  induction l generalizing rows with
  | nil =>
    rw [notNullFilter] at h
    cases h
    exact le_refl _
  | cons c cs ih =>
    rw [notNullFilter] at h
    by_cases hc : cols.contains c
    · rw [if_pos hc] at h
      exact le_trans (ih _ h) (List.length_filter_le _ _)
    · rw [if_neg hc] at h
      cases h

theorem notNullFilter_error_shape (cols : List String) (l : List String)
    (rows : List Row) (e : PipeError) (h : notNullFilter cols l rows = .error e) :
    ∃ c, e = .keyError c ∧ c ∈ l ∧ ¬ cols.contains c := by
  induction l generalizing rows with
  | nil => rw [notNullFilter] at h; cases h
  | cons c cs ih =>
    rw [notNullFilter] at h
    by_cases hc : cols.contains c
    · rw [if_pos hc] at h
      obtain ⟨c', he, hmem, hnc⟩ := ih _ h
      exact ⟨c', he, by simp [hmem], hnc⟩
    · rw [if_neg hc] at h
      cases h
      exact ⟨c, rfl, by simp, hc⟩

theorem notNullFilter_error_of_absent (cols : List String) (l : List String)
    (rows : List Row) (h : ∃ c ∈ l, ¬ cols.contains c) :
    ∃ c ∈ l, ¬ cols.contains c ∧
      notNullFilter cols l rows = .error (.keyError c) := by
  induction l generalizing rows with
  | nil => simp at h
  | cons c cs ih =>
    by_cases hc : cols.contains c
    · obtain ⟨c', hmem, hnc⟩ := h
      have hcs : ∃ c' ∈ cs, ¬ cols.contains c' := by
        rcases List.mem_cons.mp hmem with rfl | hmem'
        · exact absurd hc hnc
        · exact ⟨c', hmem', hnc⟩
      obtain ⟨c', hmem', hnc', hres⟩ := ih _ hcs
      exact ⟨c', by simp [hmem'], hnc', by rw [notNullFilter, if_pos hc]; exact hres⟩
    · exact ⟨c, by simp, hc, by rw [notNullFilter, if_neg hc]⟩

theorem validate_data_eq_ok_nnc (coerce : CoerceFn) (df : DataFrame)
    (l : List String) (rows : List Row)
    (h : notNullFilter df.cols l df.rows = .ok rows) :
    validate_data coerce df { not_null_columns := some l } =
      .ok { cols := df.cols, rows := rows } := by
  simp [validate_data, requiredStage, nncStage, dtStage, h, Bind.bind,
    Except.bind]

theorem validate_data_eq_error_nnc (coerce : CoerceFn) (df : DataFrame)
    (l : List String) (e : PipeError)
    (h : notNullFilter df.cols l df.rows = .error e) :
    validate_data coerce df { not_null_columns := some l } = .error e := by
  simp [validate_data, requiredStage, nncStage, dtStage, h, Bind.bind,
    Except.bind]

theorem mapM_option_length {α β : Type} (f : α → Option β) (l : List α)
    (l' : List β) (h : l.mapM f = some l') : l'.length = l.length := by
  induction l generalizing l' with
  | nil =>
    have h0 : (some [] : Option (List β)) = some l' := h
    cases h0; rfl
  | cons a as ih =>
    simp only [List.mapM_cons, Option.bind_eq_bind, Option.bind] at h
    cases hfa : f a with
    | none => rw [hfa] at h; simp at h
    | some b =>
      rw [hfa] at h
      cases hrest : as.mapM f with
      | none => rw [hrest] at h; simp at h
      | some bs =>
        rw [hrest] at h
        simp at h
        simp [← h, ih bs hrest]

theorem applyDtypes_cols (coerce : CoerceFn) (df : DataFrame)
    (dts : List (String × String)) :
    (applyDtypes coerce df dts).cols = df.cols := by
  induction dts generalizing df with
  | nil => rfl
  | cons cd rest ih =>
    obtain ⟨c, dtype⟩ := cd
    rw [applyDtypes]
    by_cases hc : df.cols.contains c
    · rw [if_pos hc]
      cases hm : (getColVals df c).mapM (coerce dtype) with
      | none => exact ih df
      | some vals => rw [ih]; rfl
    · rw [if_neg hc]; exact ih df

theorem applyDtypes_rows_length (coerce : CoerceFn) (df : DataFrame)
    (dts : List (String × String)) :
    (applyDtypes coerce df dts).rows.length = df.rows.length := by
  induction dts generalizing df with
  | nil => rfl
  | cons cd rest ih =>
    obtain ⟨c, dtype⟩ := cd
    rw [applyDtypes]
    by_cases hc : df.cols.contains c
    · rw [if_pos hc]
      cases hm : (getColVals df c).mapM (coerce dtype) with
      | none => exact ih df
      | some vals =>
        rw [ih]
        have hlen : vals.length = df.rows.length := by
          have := mapM_option_length _ _ _ hm
          simpa [getColVals] using this
        simp [setColVals, hlen]
    · rw [if_neg hc]; exact ih df

theorem except_bind_ok_inv {ε α β : Type} (x : Except ε α)
    (f : α → Except ε β) (b : β) (h : Except.bind x f = .ok b) :
    ∃ a, x = .ok a ∧ f a = .ok b := by
  cases x with
  | error e => simp [Except.bind] at h
  | ok a => exact ⟨a, rfl, h⟩

theorem requiredStage_ok (df df₁ : DataFrame) (rc : Option (List String))
    (h : requiredStage df rc = .ok df₁) : df₁ = df := by
  cases rc with
  | none => cases h; rfl
  | some req =>
    rw [requiredStage] at h
    by_cases hm : missingCols req df.cols ≠ []
    · rw [if_pos hm] at h; cases h
    · rw [if_neg hm] at h; cases h; rfl

theorem nncStage_ok (df df₂ : DataFrame) (nnc : Option (List String))
    (h : nncStage df nnc = .ok df₂) :
    df₂.cols = df.cols ∧ df₂.rows.length ≤ df.rows.length := by
  cases nnc with
  | none => cases h; exact ⟨rfl, le_refl _⟩
  | some listed =>
    rw [nncStage] at h
    cases hf : notNullFilter df.cols listed df.rows with
    | ok rows =>
      rw [hf] at h
      cases h
      exact ⟨rfl, notNullFilter_ok_length _ _ _ _ hf⟩
    | error e => rw [hf] at h; cases h

theorem dtStage_ok (coerce : CoerceFn) (df df₃ : DataFrame)
    (dt : Option (List (String × String)))
    (h : dtStage coerce df dt = .ok df₃) :
    df₃.cols = df.cols ∧ df₃.rows.length = df.rows.length := by
  cases dt with
  | none => cases h; exact ⟨rfl, rfl⟩
  | some dts =>
    cases h
    exact ⟨applyDtypes_cols _ _ _, applyDtypes_rows_length _ _ _⟩

theorem validate_data_ok_length (coerce : CoerceFn) (df : DataFrame)
    (rules : Rules) (df' : DataFrame)
    (h : validate_data coerce df rules = .ok df') :
    df'.rows.length ≤ df.rows.length := by
  rw [validate_data] at h
  simp only [Bind.bind] at h
  obtain ⟨a, ha, h1⟩ := except_bind_ok_inv _ _ _ h
  obtain ⟨b, hb, h2⟩ := except_bind_ok_inv _ _ _ h1
  have hda := requiredStage_ok df a _ ha
  calc df'.rows.length = b.rows.length := (dtStage_ok _ _ _ _ h2).2
    _ ≤ a.rows.length := (nncStage_ok _ _ _ hb).2
    _ = df.rows.length := by rw [hda]

/-! ### Claim theorems: C3, C5, C7 -/

/-- C3: the spec claims `csv`, `json` and `api` are all dispatched to the
source collaborator and only other kinds (e.g. `xml`) fail with a
ConfigError.  Evaluating the dispatch: `api` raises the unsupported-source
`ValueError` exactly like `xml`, before any collaborator is invoked,
contradicting the docstring of `run` itself (which lists `api`) and the existing
`DataExtractor.extract_from_api` method; only `csv` and `json` dispatch. -/
theorem c3_api_rejected_like_xml :
    extractDispatch "api" = .error (.configError "api") ∧
      extractDispatch "xml" = .error (.configError "xml") ∧
      extractDispatch "csv" = .ok .viaCsv ∧
      extractDispatch "json" = .ok .viaJson ∧
      ∀ cfg co coerce p tbl t,
        (pipelineRun cfg co coerce p tbl "api" t).sourceCalled = false ∧
          (pipelineRun cfg co coerce p tbl "xml" t).sourceCalled = false :=
  ⟨rfl, rfl, rfl, rfl, fun _ _ _ _ _ _ => ⟨rfl, rfl⟩⟩

/-- C5: a rule set whose `required_columns` has a name absent from the
Batch schema makes `validate_data` fail with the schema `ValueError`
naming exactly the set of missing columns, whatever the other rules are;
the failure depends only on the schema, not on the rows (the stage aborts
before any row filtering or coercion). -/
theorem c5_missing_required_columns (coerce : CoerceFn) (df : DataFrame)
    (req : List String) (nnc : Option (List String))
    (dts : Option (List (String × String)))
    (h : ∃ c ∈ req, ¬ df.cols.contains c) :
    validate_data coerce df ⟨some req, nnc, dts⟩ =
        .error (.schemaError (missingCols req df.cols)) ∧
      (∀ c, c ∈ missingCols req df.cols ↔ c ∈ req ∧ c ∉ df.cols) ∧
      ∀ rows, validate_data coerce ⟨df.cols, rows⟩ ⟨some req, nnc, dts⟩ =
        .error (.schemaError (missingCols req df.cols)) := by
  obtain ⟨c0, hc0, hnc0⟩ := h
  have hcf : df.cols.contains c0 = false := by
    cases hcc : df.cols.contains c0
    · rfl
    · exact absurd hcc hnc0
  have hmem : c0 ∈ missingCols req df.cols := by
    simp [missingCols, List.mem_dedup, List.mem_filter, hc0, hcf]
    exact fun hm => hnc0 (List.elem_iff.mpr hm)
  have hne : missingCols req df.cols ≠ [] := List.ne_nil_of_mem hmem
  have hgen : ∀ rows, validate_data coerce ⟨df.cols, rows⟩ ⟨some req, nnc, dts⟩ =
      .error (.schemaError (missingCols req df.cols)) := by
    intro rows
    rw [validate_data]
    simp only [Bind.bind]
    have hstage : requiredStage ⟨df.cols, rows⟩ (some req) =
        .error (.schemaError (missingCols req df.cols)) := by
      rw [requiredStage, if_pos hne]
    rw [hstage]
    rfl
  refine ⟨hgen df.rows, fun c => ?_, hgen⟩
  simp [missingCols, List.mem_dedup, List.mem_filter, List.elem_iff]

/-- Witness for C5: the example of the spec, columns `A`, `B` with
the rule requiring also `C` fails naming exactly `C`. -/
theorem c5_witness :
    (∃ c ∈ (["A", "C"] : List String),
        ¬ (["A", "B"] : List String).contains c) ∧
      validate_data (fun _ v => some v) ⟨["A", "B"], []⟩
          ⟨some ["A", "C"], none, none⟩ =
        .error (.schemaError ["C"]) :=
  ⟨by decide,
    (c5_missing_required_columns (fun _ v => some v) ⟨["A", "B"], []⟩
        ["A", "C"] none none (by decide)).1⟩

/-- C7: `validate_data` never grows the Batch (whenever it returns a
Batch, the row count is at most that of the input), and with the empty rule
set it is the identity. -/
theorem c7_validate_monotonic_shrinking (coerce : CoerceFn) (df : DataFrame) :
    (∀ rules df', validate_data coerce df rules = .ok df' →
        df'.rows.length ≤ df.rows.length) ∧
      validate_data coerce df {} = .ok df :=
  ⟨fun rules df' h => validate_data_ok_length coerce df rules df' h, rfl⟩

/-- Witness for C7 at a concrete Batch: one null row of two is dropped by
a not-null rule, and 1 ≤ 2. -/
theorem c7_witness :
    validate_data (fun _ v => some v) ⟨["A"], [[.null], [.int 1]]⟩
        { not_null_columns := some ["A"] } = .ok ⟨["A"], [[.int 1]]⟩ ∧
      (⟨["A"], [[.int 1]]⟩ : DataFrame).rows.length ≤
        (⟨["A"], [[.null], [.int 1]]⟩ : DataFrame).rows.length :=
  ⟨rfl,
    (c7_validate_monotonic_shrinking (fun _ v => some v)
          ⟨["A"], [[.null], [.int 1]]⟩).1
      { not_null_columns := some ["A"] } ⟨["A"], [[.int 1]]⟩ rfl⟩

theorem all_perm {α : Type} (l l' : List α) (f : α → Bool) (h : l.Perm l') :
    l.all f = l'.all f := by
  cases hb : l.all f with
  | true =>
    symm
    rw [List.all_eq_true] at hb ⊢
    exact fun c hc => hb c (h.mem_iff.mpr hc)
  | false =>
    symm
    rw [Bool.eq_false_iff] at hb ⊢
    intro hb'
    apply hb
    rw [List.all_eq_true] at hb' ⊢
    exact fun c hc => hb' c (h.mem_iff.mp hc)

/-- C6: with a `not_null_columns` rule over columns present in the
schema, the surviving records are exactly the input records that are
non-null in every listed column, and the outcome is invariant under
reordering the listed columns. -/
theorem c6_not_null_filter_exact (coerce : CoerceFn) (df : DataFrame)
    (l : List String) (h : ∀ c ∈ l, df.cols.contains c) :
    validate_data coerce df { not_null_columns := some l } =
        .ok { cols := df.cols
              rows := df.rows.filter
                (fun r => l.all (fun c => notNull (cellAt df.cols c r))) } ∧
      (∀ r, r ∈ df.rows.filter
            (fun r => l.all (fun c => notNull (cellAt df.cols c r))) ↔
          r ∈ df.rows ∧ ∀ c ∈ l, notNull (cellAt df.cols c r)) ∧
      ∀ l', l.Perm l' →
        validate_data coerce df { not_null_columns := some l } =
          validate_data coerce df { not_null_columns := some l' } := by
  have h1 := validate_data_eq_ok_nnc coerce df l _
    (notNullFilter_ok_of_present df.cols l df.rows h)
  refine ⟨h1, fun r => ?_, fun l' hperm => ?_⟩
  · simp [List.mem_filter, List.all_eq_true]
  · have h2 := validate_data_eq_ok_nnc coerce df l' _
      (notNullFilter_ok_of_present df.cols l' df.rows
        (fun c hc => h c (hperm.mem_iff.mpr hc)))
    rw [h1, h2]
    have hfe := List.filter_congr
      (fun (r : Row) (_ : r ∈ df.rows) =>
        all_perm l l' (fun c => notNull (cellAt df.cols c r)) hperm)
    rw [hfe]

/-- Witness for C6: the example shape from the spec, a Batch of 4 records where
one has a null in the listed column; the three surviving records are
exactly those non-null there. -/
theorem c6_witness :
    (∀ c ∈ (["A"] : List String), (["A", "B"] : List String).contains c) ∧
      validate_data (fun _ v => some v)
          ⟨["A", "B"],
            [[.int 1, .null], [.null, .int 2], [.int 3, .int 4],
              [.int 5, .str "x"]]⟩
          { not_null_columns := some ["A"] } =
        .ok ⟨["A", "B"],
          [[.int 1, .null], [.int 3, .int 4], [.int 5, .str "x"]]⟩ :=
  ⟨by decide,
    (c6_not_null_filter_exact (fun _ v => some v)
        ⟨["A", "B"],
          [[.int 1, .null], [.null, .int 2], [.int 3, .int 4],
            [.int 5, .str "x"]]⟩
        ["A"] (by decide)).1⟩

/-- C10: the rules dictionary built by `ETLPipeline.run` carries the
configured `required_columns` only under the `not_null_columns` key and
never sets `required_columns`, so a pipeline run can never raise the
batch-wide schema `ValueError`; a configured column absent from the
cleaned Batch instead surfaces as the row filter's `KeyError`. -/
theorem c10_pipeline_never_schema_error (cfg : PipelineConfig) :
    (pipelineRules cfg).required_columns = none ∧
      (pipelineRules cfg).not_null_columns = some cfg.required_columns ∧
      (∀ coerce df m, validate_data coerce df (pipelineRules cfg) ≠
          .error (.schemaError m)) ∧
      ∀ coerce df, (∃ c ∈ cfg.required_columns, ¬ df.cols.contains c) →
        ∃ c ∈ cfg.required_columns, ¬ df.cols.contains c ∧
          validate_data coerce df (pipelineRules cfg) =
            .error (.keyError c) := by
  refine ⟨rfl, rfl, fun coerce df m hcontra => ?_, fun coerce df habs => ?_⟩
  · cases hf : notNullFilter df.cols cfg.required_columns df.rows with
    | ok rows =>
      rw [show pipelineRules cfg = { not_null_columns := some cfg.required_columns } from rfl,
        validate_data_eq_ok_nnc coerce df _ _ hf] at hcontra
      cases hcontra
    | error e =>
      rw [show pipelineRules cfg = { not_null_columns := some cfg.required_columns } from rfl,
        validate_data_eq_error_nnc coerce df _ _ hf] at hcontra
      obtain ⟨c, he, _, _⟩ := notNullFilter_error_shape _ _ _ _ hf
      rw [he] at hcontra
      cases hcontra
  · obtain ⟨c, hm, hnc, hres⟩ := notNullFilter_error_of_absent df.cols
      cfg.required_columns df.rows habs
    exact ⟨c, hm, hnc,
      validate_data_eq_error_nnc coerce df _ _ hres⟩

/-- Witness for C10: configured column `A`, cleaned Batch with only
column `B`: the failure is a `KeyError`, not the schema error. -/
theorem c10_witness :
    (∃ c ∈ (["A"] : List String), ¬ (["B"] : List String).contains c) ∧
      ∃ c ∈ (["A"] : List String), ¬ (["B"] : List String).contains c ∧
        validate_data (fun _ v => some v) ⟨["B"], []⟩
            (pipelineRules ⟨["A"]⟩) =
          .error (.keyError c) :=
  ⟨by decide,
    (c10_pipeline_never_schema_error ⟨["A"]⟩).2.2.2 (fun _ v => some v)
      ⟨["B"], []⟩ (by decide)⟩

/-- C4 counterexample: a concrete run whose sink write does not succeed
(`write_pandas` reports `success = False`, so `load_dataframe` returns
`False`): `run` only logs "ETL Pipeline failed during load step" and
returns normally — no error is re-raised to the caller, refuting the
claim that every failed load makes the run fail. -/
theorem c4_counterexample_swallowed_load_failure :
    (pipelineRun ⟨[]⟩
        ⟨fun _ => .ok ⟨["A"], [[.str "x"]]⟩, fun _ => .ok ⟨[], []⟩,
          .ok (), fun _ => .ok 0, fun _ _ => .ok false⟩
        (fun _ v => some v) "path" "TBL" "csv" 0).outcome = none :=
  rfl

/-- C4 amended: when the load step raises (`LoadError`), the run fails
with that same error re-raised to the caller and the teardown still
runs; but when the sink write merely reports failure (returns `False`),
the run logs and returns normally (the failure is not re-raised); the
`finally` teardown (disconnect) runs in every case. -/
theorem c4_load_error_reraised_disconnect_always (df : DataFrame)
    (e : PipeError) (p tbl : String) (t : ℕ) (coerce : CoerceFn) :
    pipelineRun ⟨[]⟩
        ⟨fun _ => .ok df, fun _ => .ok df, .ok (), fun _ => .ok 0,
          fun _ _ => .error e⟩ coerce p tbl "csv" t =
      ⟨some e, true, true⟩ ∧
      pipelineRun ⟨[]⟩
          ⟨fun _ => .ok df, fun _ => .ok df, .ok (), fun _ => .ok 0,
            fun _ _ => .ok false⟩ coerce p tbl "csv" t =
        ⟨none, true, true⟩ ∧
      ∀ cfg co st,
        (pipelineRun cfg co coerce p tbl st t).disconnectCalled = true := by
  refine ⟨rfl, rfl, fun cfg co st => ?_⟩
  rcases hd : extractDispatch st with e' | r <;> simp [pipelineRun, hd]

/-! ### Helper lemmas for the idempotence analysis of `clean_data` -/

theorem dropWhile_head_false {α : Type} (p : α → Bool) (l : List α) (x : α)
    (xs : List α) (h : l.dropWhile p = x :: xs) : p x = false := by
  induction l with
  | nil => cases h
  | cons a as ih =>
    rw [List.dropWhile_cons] at h
    by_cases ha : p a = true
    · rw [if_pos ha] at h
      exact ih h
    · rw [if_neg ha] at h
      cases h
      exact Bool.eq_false_iff.mpr ha

theorem dropWhile_idem {α : Type} (p : α → Bool) (l : List α) :
    (l.dropWhile p).dropWhile p = l.dropWhile p := by
  cases h : l.dropWhile p with
  | nil => rfl
  | cons x xs =>
    rw [List.dropWhile_cons, dropWhile_head_false p l x xs h]
    simp

theorem dropWhile_is_suffix {α : Type} (p : α → Bool) (l : List α) :
    ∃ pre, l = pre ++ l.dropWhile p := by
  induction l with
  | nil => exact ⟨[], rfl⟩
  | cons a as ih =>
    rw [List.dropWhile_cons]
    by_cases ha : p a = true
    · obtain ⟨pre, hpre⟩ := ih
      exact ⟨a :: pre, by rw [if_pos ha]; simpa using hpre⟩
    · exact ⟨[], by rw [if_neg ha]; rfl⟩

theorem trimChars_dropWhile (l : List Char) :
    (trimChars l).dropWhile isWs = trimChars l := by
  rw [trimChars]
  set a := l.dropWhile isWs with ha
  cases hb : a.reverse.dropWhile isWs with
  | nil => simp
  | cons y ys =>
    have hbne : a.reverse.dropWhile isWs ≠ [] := by rw [hb]; simp
    obtain ⟨pre, hpre⟩ := dropWhile_is_suffix isWs a.reverse
    have hlast : (a.reverse.dropWhile isWs).getLast? = a.head? := by
      rw [← List.getLast?_reverse a]
      conv_rhs => rw [hpre]
      exact (List.getLast?_append_of_ne_nil pre hbne).symm
    have hahead : ∀ z, a.head? = some z → isWs z = false := by
      intro z hz
      cases hae : a with
      | nil => rw [hae] at hz; cases hz
      | cons w ws =>
        rw [hae] at hz
        cases hz
        exact dropWhile_head_false isWs l z ws (by rw [← hae, ha])
    have hhead : ((a.reverse.dropWhile isWs).reverse).head? =
        (a.reverse.dropWhile isWs).getLast? := List.head?_reverse _
    cases hrev : (a.reverse.dropWhile isWs).reverse with
    | nil =>
      have : a.reverse.dropWhile isWs = [] := by
        have := congrArg List.reverse hrev
        simpa using this
      exact absurd this hbne
    | cons z zs =>
      have hz : a.head? = some z := by
        rw [← hlast, ← hhead, hrev]
        rfl
      rw [hb] at hrev
      rw [hrev, List.dropWhile_cons, hahead z hz]
      simp

theorem trimChars_idem (l : List Char) :
    trimChars (trimChars l) = trimChars l := by
  have h1 : trimChars (trimChars l) =
      ((trimChars l).reverse.dropWhile isWs).reverse := by
    rw [trimChars, trimChars_dropWhile]
  rw [h1, trimChars]
  rw [List.reverse_reverse, dropWhile_idem]

theorem strStrip_idem (s : String) : strStrip (strStrip s) = strStrip s :=
  congrArg String.mk (trimChars_idem s.data)

theorem upChar_idem (c : Char) : upChar (upChar c) = upChar c := by
  by_cases h : 97 ≤ c.toNat ∧ c.toNat ≤ 122
  · have ht : (upChar c).toNat = c.toNat - 32 := by
      rw [upChar, dif_pos h]
      rfl
    have hnc : ¬ (97 ≤ (upChar c).toNat ∧ (upChar c).toNat ≤ 122) := by
      rw [ht]; omega
    rw [upChar, dif_neg hnc]
  · have h1 : upChar c = c := by rw [upChar, dif_neg h]
    rw [h1, h1]

theorem strUpper_idem (s : String) : strUpper (strUpper s) = strUpper s := by
  show String.mk ((s.data.map upChar).map upChar) = String.mk (s.data.map upChar)
  rw [List.map_map, show upChar ∘ upChar = upChar from funext upChar_idem]

theorem stripVal_idem (v : Value) : stripVal (stripVal v) = stripVal v := by
  cases v with
  | str s => simp [stripVal, strStrip_idem]
  | null => rfl
  | int n => rfl
  | rat q => rfl
  | timestamp t => rfl

theorem mem_dropDupsAux (r : Row) (seen l : List Row) :
    r ∈ dropDupsAux seen l ↔ r ∈ l ∧ r ∉ seen := by
  induction l generalizing seen with
  | nil => simp [dropDupsAux]
  | cons a as ih =>
    rw [dropDupsAux]
    by_cases ha : a ∈ seen
    · rw [if_pos ha, ih]
      constructor
      · exact fun ⟨h1, h2⟩ => ⟨List.mem_cons_of_mem a h1, h2⟩
      · rintro ⟨h1, h2⟩
        rcases List.mem_cons.mp h1 with rfl | h1'
        · exact absurd ha h2
        · exact ⟨h1', h2⟩
    · rw [if_neg ha]
      simp only [List.mem_cons, ih]
      constructor
      · rintro (rfl | ⟨h1, h2⟩)
        · exact ⟨Or.inl rfl, ha⟩
        · exact ⟨Or.inr h1, fun hs => h2 (Or.inr hs)⟩
      · rintro ⟨rfl | h1, h2⟩
        · exact Or.inl rfl
        · by_cases hra : r = a
          · exact Or.inl hra
          · exact Or.inr ⟨h1, fun hs => by
              rcases hs with h' | h'
              · exact hra h'
              · exact h2 h'⟩

theorem mem_dropDuplicates (r : Row) (l : List Row) :
    r ∈ dropDuplicates l ↔ r ∈ l := by
  simp [dropDuplicates, mem_dropDupsAux]

theorem stripRowAux_length (rs : List Row) (k : ℕ) (r : Row) :
    (stripRowAux rs k r).length = r.length := by
  induction r generalizing k with
  | nil => rfl
  | cons v vs ih => simp [stripRowAux, ih]

theorem stripRowAux_getD (rs : List Row) (r : Row) (k j : ℕ) :
    (stripRowAux rs k r).getD j .null =
      if objCol rs (k + j) then stripVal (r.getD j .null)
      else r.getD j .null := by
  induction r generalizing k j with
  | nil =>
    rw [stripRowAux]
    cases objCol rs (k + j) <;> simp [stripVal]
  | cons v vs ih =>
    cases j with
    | zero => simp [stripRowAux]
    | succ j' =>
      simp only [stripRowAux, List.getD_cons_succ]
      rw [ih (k + 1) j']
      have hk : k + 1 + j' = k + (j' + 1) := by omega
      rw [hk]

theorem objCol_of_mem_iff (X Y : List Row) (h : ∀ r, r ∈ X ↔ r ∈ Y) (j : ℕ) :
    objCol X j = objCol Y j := by
  cases hx : objCol X j with
  | true =>
    symm
    rw [objCol, List.any_eq_true] at hx ⊢
    obtain ⟨r, hr, hs⟩ := hx
    exact ⟨r, (h r).mp hr, hs⟩
  | false =>
    symm
    rw [objCol, Bool.eq_false_iff] at hx ⊢
    intro hy
    apply hx
    rw [List.any_eq_true] at hy ⊢
    obtain ⟨r, hr, hs⟩ := hy
    exact ⟨r, (h r).mpr hr, hs⟩

theorem objCol_stripRows_false (V : List Row) (j : ℕ)
    (h : objCol V j = false) : objCol (stripRows V) j = false := by
  rw [Bool.eq_false_iff]
  intro hc
  rw [objCol, stripRows, List.any_map, List.any_eq_true] at hc
  obtain ⟨r, hr, hs⟩ := hc
  simp only [Function.comp] at hs
  rw [stripRowAux_getD, Nat.zero_add, h] at hs
  simp only [Bool.false_eq_true, if_false] at hs
  have hV : objCol V j = true := by
    rw [objCol, List.any_eq_true]
    exact ⟨r, hr, hs⟩
  rw [h] at hV
  cases hV

theorem map_id_of_mem {α : Type} (f : α → α) (l : List α)
    (h : ∀ x ∈ l, f x = x) : l.map f = l := by
  induction l with
  | nil => rfl
  | cons a as ih =>
    rw [List.map_cons, h a (by simp), ih (fun x hx => h x (by simp [hx]))]

theorem stripRows_dedup_stripped (V : List Row) :
    stripRows (dropDuplicates (stripRows V)) = dropDuplicates (stripRows V) := by
  rw [show stripRows (dropDuplicates (stripRows V)) =
      (dropDuplicates (stripRows V)).map
        (stripRowAux (dropDuplicates (stripRows V)) 0) from rfl]
  apply map_id_of_mem
  intro r hrD
  have hrW : r ∈ stripRows V := (mem_dropDuplicates r (stripRows V)).mp hrD
  rw [stripRows] at hrW
  obtain ⟨r₀, hr₀, hr⟩ := List.mem_map.mp hrW
  apply List.ext_getElem (stripRowAux_length _ 0 r)
  intro i h1 h2
  rw [← List.getD_eq_getElem (stripRowAux (dropDuplicates (stripRows V)) 0 r)
      .null h1,
    ← List.getD_eq_getElem r .null h2, stripRowAux_getD, Nat.zero_add]
  have hDW : objCol (dropDuplicates (stripRows V)) i = objCol (stripRows V) i :=
    objCol_of_mem_iff _ _ (fun r => mem_dropDuplicates r (stripRows V)) i
  by_cases hobj : objCol (dropDuplicates (stripRows V)) i = true
  · rw [hobj]
    simp only [if_true]
    by_cases hV : objCol V i = true
    · have hcell : r.getD i .null = stripVal (r₀.getD i .null) := by
        rw [← hr, stripRowAux_getD, Nat.zero_add, hV]
        simp
      rw [hcell, stripVal_idem]
    · have hVf : objCol V i = false := Bool.eq_false_iff.mpr hV
      have hWf : objCol (stripRows V) i = false := objCol_stripRows_false V i hVf
      rw [hDW, hWf] at hobj
      cases hobj
  · have hobjf : objCol (dropDuplicates (stripRows V)) i = false :=
      Bool.eq_false_iff.mpr hobj
    rw [hobjf]
    simp

/-- C2 counterexample: `clean` is not idempotent.  The Batch with one
column and rows `" a"`, `"a "`: the first `clean` deduplicates before
trimming, so both rows become `"a"` and the cleaned Batch holds two
equal rows; a second `clean` removes the new duplicate. -/
theorem c2_counterexample_clean_not_idempotent :
    clean_data (clean_data ⟨["x"], [[.str " a"], [.str "a "]]⟩) ≠
      clean_data ⟨["x"], [[.str " a"], [.str "a "]]⟩ := by
  decide

/-- C2 amended: a second application of `clean` changes nothing except
removing duplicate rows that the first pass's trimming created (because
`clean` deduplicates before trimming): `clean(clean(b))` equals
`clean(b)` with duplicates dropped — string values are unchanged by
further trimming and column names stay uppercase; hence `clean` is
idempotent exactly on Batches whose cleaned rows are duplicate-free. -/
theorem c2_clean_second_pass_only_dedups (df : DataFrame) :
    clean_data (clean_data df) =
      ⟨(clean_data df).cols, dropDuplicates (clean_data df).rows⟩ := by
  show DataFrame.mk ((df.cols.map strUpper).map strUpper)
      (stripRows (dropDuplicates (stripRows (dropDuplicates df.rows)))) =
    ⟨df.cols.map strUpper,
      dropDuplicates (stripRows (dropDuplicates df.rows))⟩
  congr 1
  · rw [List.map_map, show strUpper ∘ strUpper = strUpper from
      funext strUpper_idem]
  · exact stripRows_dedup_stripped (dropDuplicates df.rows)

/-! ### Helper lemmas about `addCol` and enrichment -/

theorem addCol_cols_toFinset (df : DataFrame) (n : String) (vals : List Value) :
    (addCol df n vals).cols.toFinset = insert n df.cols.toFinset := by
  by_cases h : df.cols.contains n
  · rw [addCol, if_pos h]
    show df.cols.toFinset = _
    symm
    exact Finset.insert_eq_self.mpr (List.mem_toFinset.mpr (List.elem_iff.mp h))
  · rw [addCol, if_neg h]
    show (df.cols ++ [n]).toFinset = _
    rw [List.toFinset_append]
    apply Finset.ext
    intro x
    simp [or_comm]

theorem addCol_rows_length (df : DataFrame) (n : String) (vals : List Value)
    (h : vals.length = df.rows.length) :
    (addCol df n vals).rows.length = df.rows.length := by
  by_cases hc : n ∈ df.cols <;>
    simp [addCol, setColVals, hc, h]

theorem addCol_mem_cols (df : DataFrame) (n : String) (vals : List Value) :
    n ∈ (addCol df n vals).cols := by
  by_cases hc : df.cols.contains n
  · rw [addCol, if_pos hc]
    exact List.elem_iff.mp hc
  · rw [addCol, if_neg hc]
    exact List.mem_append_right _ (by simp)

theorem addCol_wf (df : DataFrame) (n : String) (vals : List Value)
    (hwf : ∀ r ∈ df.rows, r.length = df.cols.length)
    (hv : vals.length = df.rows.length) :
    ∀ r ∈ (addCol df n vals).rows, r.length = (addCol df n vals).cols.length := by
  by_cases hc : df.cols.contains n
  · simp only [addCol, if_pos hc, setColVals]
    intro r hr
    obtain ⟨i, hi, rfl⟩ := List.mem_iff_getElem.mp hr
    rw [List.getElem_zipWith]
    simp only [List.length_set]
    exact hwf _ (List.getElem_mem _)
  · simp only [addCol, if_neg hc]
    intro r hr
    obtain ⟨i, hi, rfl⟩ := List.mem_iff_getElem.mp hr
    rw [List.getElem_zipWith]
    simp only [List.length_append, List.length_singleton]
    rw [hwf _ (List.getElem_mem _)]

theorem addCol_cell_self (df : DataFrame) (n : String) (vals : List Value)
    (hwf : ∀ r ∈ df.rows, r.length = df.cols.length)
    (hv : vals.length = df.rows.length) (i : ℕ) (hi : i < df.rows.length) :
    cellAt (addCol df n vals).cols n ((addCol df n vals).rows.getD i []) =
      vals.getD i .null := by
  have hiv : i < vals.length := by omega
  by_cases hc : df.cols.contains n
  · have hmem : n ∈ df.cols := List.elem_iff.mp hc
    have hidx : df.cols.indexOf n < df.cols.length :=
      List.indexOf_lt_length.mpr hmem
    simp only [addCol, if_pos hc, setColVals, cellAt]
    have hlen : i < (List.zipWith
        (fun r v => r.set (df.cols.indexOf n) v) df.rows vals).length := by
      rw [List.length_zipWith]
      omega
    rw [List.getD_eq_getElem _ _ hlen, List.getElem_zipWith]
    have hrl : (df.rows[i]).length = df.cols.length :=
      hwf _ (List.getElem_mem _)
    have hset : df.cols.indexOf n < ((df.rows[i]).set (df.cols.indexOf n)
        vals[i]).length := by
      rw [List.length_set]; omega
    rw [List.getD_eq_getElem _ _ hset, List.getElem_set_self hset,
      List.getD_eq_getElem _ _ hiv]
  · have hnm : n ∉ df.cols := fun hmem => hc (List.elem_iff.mpr hmem)
    simp only [addCol, if_neg hc, cellAt]
    have hidx : (df.cols ++ [n]).indexOf n = df.cols.length := by
      rw [List.indexOf_append_of_not_mem hnm, List.indexOf_cons_self]
      omega
    have hlen : i < (List.zipWith (fun r v => r ++ [v]) df.rows vals).length := by
      rw [List.length_zipWith]
      omega
    rw [hidx, List.getD_eq_getElem _ _ hlen, List.getElem_zipWith]
    have hrl : (df.rows[i]).length = df.cols.length :=
      hwf _ (List.getElem_mem _)
    have hb : df.cols.length < (df.rows[i] ++ [vals[i]]).length := by
      simp [hrl]
    rw [List.getD_eq_getElem _ _ hb,
      List.getElem_concat_length _ _ _ hrl.symm, List.getD_eq_getElem _ _ hiv]

theorem addCol_cell_other (df : DataFrame) (n m : String) (vals : List Value)
    (hm : m ∈ df.cols) (hmn : m ≠ n)
    (hwf : ∀ r ∈ df.rows, r.length = df.cols.length)
    (hv : vals.length = df.rows.length) (i : ℕ) (hi : i < df.rows.length) :
    cellAt (addCol df n vals).cols m ((addCol df n vals).rows.getD i []) =
      cellAt df.cols m (df.rows.getD i []) := by
  have hiv : i < vals.length := by omega
  have hmidx : df.cols.indexOf m < df.cols.length :=
    List.indexOf_lt_length.mpr hm
  have hrl : (df.rows[i]).length = df.cols.length :=
    hwf _ (List.getElem_mem _)
  by_cases hc : df.cols.contains n
  · have hnmem : n ∈ df.cols := List.elem_iff.mp hc
    have hne : df.cols.indexOf n ≠ df.cols.indexOf m := by
      intro he
      apply hmn
      have h1 := List.getElem_indexOf (l := df.cols)
        (List.indexOf_lt_length.mpr hm)
      have h2 := List.getElem_indexOf (l := df.cols)
        (List.indexOf_lt_length.mpr hnmem)
      rw [← h1, ← h2]
      congr 1
      omega
    simp only [addCol, if_pos hc, setColVals, cellAt]
    have hlen : i < (List.zipWith
        (fun r v => r.set (df.cols.indexOf n) v) df.rows vals).length := by
      rw [List.length_zipWith]; omega
    rw [List.getD_eq_getElem _ _ hlen, List.getElem_zipWith]
    have hset : df.cols.indexOf m < ((df.rows[i]).set (df.cols.indexOf n)
        vals[i]).length := by
      rw [List.length_set]; omega
    rw [List.getD_eq_getElem _ _ hset,
      List.getElem_set_ne hne hset,
      List.getD_eq_getElem _ _ (by omega : i < df.rows.length),
      List.getD_eq_getElem _ _ (by omega : df.cols.indexOf m <
        (df.rows[i]).length)]
  · simp only [addCol, if_neg hc, cellAt]
    rw [List.indexOf_append_of_mem hm]
    have hlen : i < (List.zipWith (fun r v => r ++ [v]) df.rows vals).length := by
      rw [List.length_zipWith]; omega
    rw [List.getD_eq_getElem _ _ hlen, List.getElem_zipWith]
    rw [List.getD_append _ _ _ _ (by omega : df.cols.indexOf m <
      (df.rows[i]).length)]
    rw [List.getD_eq_getElem _ _ (by omega : i < df.rows.length)]

/-- C9: `enrich_data` preserves the record count, its output field set is
exactly the input field set plus `PROCESSED_AT` and
`DATA_QUALITY_SCORE`, and the `PROCESSED_AT` value is the same
(`datetime.now()` of the call) across all records of the batch. -/
theorem c9_enrich_shape (df : DataFrame) (t : ℕ)
    (hwf : ∀ r ∈ df.rows, r.length = df.cols.length) :
    (enrich_data df t).rows.length = df.rows.length ∧
      (enrich_data df t).cols.toFinset =
        df.cols.toFinset ∪ {"PROCESSED_AT", "DATA_QUALITY_SCORE"} ∧
      ∀ i, i < (enrich_data df t).rows.length →
        cellAt (enrich_data df t).cols "PROCESSED_AT"
          ((enrich_data df t).rows.getD i []) = .timestamp t := by
  set vals1 := df.rows.map (fun _ => Value.timestamp t) with hv1
  set d1 := addCol df "PROCESSED_AT" vals1 with hd1
  set vals2 := calculate_quality_score d1 with hv2
  have hv1len : vals1.length = df.rows.length := List.length_map _ _
  have hd1len : d1.rows.length = df.rows.length :=
    addCol_rows_length _ _ _ hv1len
  have hwf1 : ∀ r ∈ d1.rows, r.length = d1.cols.length :=
    addCol_wf _ _ _ hwf hv1len
  have hv2len : vals2.length = d1.rows.length := by
    rw [hv2, calculate_quality_score]
    exact List.length_map _ _
  have hE : enrich_data df t = addCol d1 "DATA_QUALITY_SCORE" vals2 := rfl
  refine ⟨?_, ?_, ?_⟩
  · rw [hE, addCol_rows_length _ _ _ hv2len, hd1len]
  · rw [hE, addCol_cols_toFinset, hd1, addCol_cols_toFinset]
    apply Finset.ext
    intro x
    simp only [Finset.mem_insert, Finset.mem_union, Finset.mem_singleton]
    tauto
  · intro i hi
    have hi' : i < d1.rows.length := by
      rw [hE, addCol_rows_length _ _ _ hv2len] at hi
      exact hi
    have hPAmem : "PROCESSED_AT" ∈ d1.cols := addCol_mem_cols df _ vals1
    rw [hE, addCol_cell_other d1 "DATA_QUALITY_SCORE" "PROCESSED_AT" vals2
      hPAmem (by decide) hwf1 hv2len i hi']
    rw [hd1, addCol_cell_self df "PROCESSED_AT" vals1 hwf hv1len i (by omega)]
    rw [hv1, List.getD_eq_getElem _ _ (by rw [List.length_map]; omega),
      List.getElem_map]

/-- Witness for C9 at a concrete two-column Batch. -/
theorem c9_witness :
    (∀ r ∈ (⟨["A", "B"], [[Value.int 1, Value.null]]⟩ : DataFrame).rows,
        r.length = (⟨["A", "B"], [[Value.int 1, Value.null]]⟩ :
          DataFrame).cols.length) ∧
      ((enrich_data ⟨["A", "B"], [[.int 1, .null]]⟩ 5).rows.length =
          (⟨["A", "B"], [[Value.int 1, Value.null]]⟩ : DataFrame).rows.length ∧
        (enrich_data ⟨["A", "B"], [[.int 1, .null]]⟩ 5).cols.toFinset =
          (⟨["A", "B"], [[Value.int 1, Value.null]]⟩ :
              DataFrame).cols.toFinset ∪
            {"PROCESSED_AT", "DATA_QUALITY_SCORE"} ∧
        ∀ i, i < (enrich_data ⟨["A", "B"], [[.int 1, .null]]⟩ 5).rows.length →
          cellAt (enrich_data ⟨["A", "B"], [[.int 1, .null]]⟩ 5).cols
              "PROCESSED_AT"
              ((enrich_data ⟨["A", "B"], [[.int 1, .null]]⟩ 5).rows.getD i []) =
            .timestamp 5) :=
  ⟨by decide, c9_enrich_shape ⟨["A", "B"], [[.int 1, .null]]⟩ 5 (by decide)⟩

/-! ### Helper lemmas for the data-types stage (C8) -/

theorem setColVals_wf (df : DataFrame) (c : String) (vals : List Value)
    (hwf : ∀ r ∈ df.rows, r.length = df.cols.length) :
    ∀ r ∈ (setColVals df c vals).rows, r.length = (setColVals df c vals).cols.length := by
  intro r hr
  simp only [setColVals] at hr ⊢
  obtain ⟨i, hi, rfl⟩ := List.mem_iff_getElem.mp hr
  rw [List.getElem_zipWith]
  simp only [List.length_set]
  exact hwf _ (List.getElem_mem _)

theorem getColVals_setColVals_self (df : DataFrame) (c : String)
    (vals : List Value) (hc : c ∈ df.cols)
    (hwf : ∀ r ∈ df.rows, r.length = df.cols.length)
    (hv : vals.length = df.rows.length) :
    getColVals (setColVals df c vals) c = vals := by
  have hidx : df.cols.indexOf c < df.cols.length :=
    List.indexOf_lt_length.mpr hc
  apply List.ext_getElem
  · simp [getColVals, setColVals, hv]
  · intro i h1 h2
    simp only [getColVals, setColVals] at h1 ⊢
    rw [List.getElem_map]
    have hzi : i < (List.zipWith
        (fun r v => r.set (df.cols.indexOf c) v) df.rows vals).length := by
      simpa [getColVals, setColVals] using h1
    rw [List.getElem_zipWith]
    show (df.rows[i].set (df.cols.indexOf c) vals[i]).getD
        (df.cols.indexOf c) .null = vals[i]
    have hrl : (df.rows[i]).length = df.cols.length :=
      hwf _ (List.getElem_mem _)
    have hb : df.cols.indexOf c <
        (df.rows[i].set (df.cols.indexOf c) vals[i]).length := by
      rw [List.length_set]; omega
    rw [List.getD_eq_getElem _ _ hb, List.getElem_set_self hb]

theorem getColVals_setColVals_other (df : DataFrame) (c c' : String)
    (vals : List Value) (hcc : c' ≠ c) (hcols : df.cols.Nodup)
    (hwf : ∀ r ∈ df.rows, r.length = df.cols.length)
    (hv : vals.length = df.rows.length) :
    getColVals (setColVals df c vals) c' = getColVals df c' := by
  apply List.ext_getElem
  · simp [getColVals, setColVals, hv]
  · intro i h1 h2
    simp only [getColVals, setColVals] at h1 h2 ⊢
    rw [List.getElem_map, List.getElem_map, List.getElem_zipWith]
    have hi : i < df.rows.length := by simpa using h2
    show (df.rows[i].set (df.cols.indexOf c) vals[i]).getD
        (df.cols.indexOf c') .null = (df.rows[i]).getD (df.cols.indexOf c') .null
    have hrl : (df.rows[i]).length = df.cols.length :=
      hwf _ (List.getElem_mem _)
    by_cases hc' : c' ∈ df.cols
    · have hidx' : df.cols.indexOf c' < df.cols.length :=
        List.indexOf_lt_length.mpr hc'
      have hbs : df.cols.indexOf c' <
          (df.rows[i].set (df.cols.indexOf c) vals[i]).length := by
        rw [List.length_set]; omega
      by_cases hc : c ∈ df.cols
      · have hne : df.cols.indexOf c ≠ df.cols.indexOf c' := by
          intro he
          apply hcc
          have h1' := List.getElem_indexOf (l := df.cols)
            (List.indexOf_lt_length.mpr hc')
          have h2' := List.getElem_indexOf (l := df.cols)
            (List.indexOf_lt_length.mpr hc)
          rw [← h1', ← h2']
          congr 1
          omega
        rw [List.getD_eq_getElem _ _ hbs, List.getElem_set_ne hne hbs,
          List.getD_eq_getElem _ _ (by omega : df.cols.indexOf c' <
            (df.rows[i]).length)]
      · have hcl : df.cols.indexOf c = df.cols.length :=
          List.indexOf_eq_length.mpr hc
        have hne : df.cols.indexOf c ≠ df.cols.indexOf c' := by omega
        rw [List.getD_eq_getElem _ _ hbs, List.getElem_set_ne hne hbs,
          List.getD_eq_getElem _ _ (by omega : df.cols.indexOf c' <
            (df.rows[i]).length)]
    · have hidx' : df.cols.indexOf c' = df.cols.length :=
        List.indexOf_eq_length.mpr hc'
      rw [List.getD_eq_default _ _ (by rw [List.length_set]; omega),
        List.getD_eq_default _ _ (by omega)]

theorem applyDtypes_wf (coerce : CoerceFn) (df : DataFrame)
    (dts : List (String × String))
    (hwf : ∀ r ∈ df.rows, r.length = df.cols.length) :
    ∀ r ∈ (applyDtypes coerce df dts).rows,
      r.length = (applyDtypes coerce df dts).cols.length := by
  induction dts generalizing df with
  | nil => exact hwf
  | cons cd rest ih =>
    obtain ⟨c, dtype⟩ := cd
    rw [applyDtypes]
    by_cases hc : df.cols.contains c
    · rw [if_pos hc]
      cases hm : (getColVals df c).mapM (coerce dtype) with
      | none => exact ih df hwf
      | some vals => exact ih _ (setColVals_wf df c vals hwf)
    · rw [if_neg hc]
      exact ih df hwf

theorem applyDtypes_col_untouched (coerce : CoerceFn) (df : DataFrame)
    (dts : List (String × String)) (c : String)
    (hcols : df.cols.Nodup)
    (hwf : ∀ r ∈ df.rows, r.length = df.cols.length)
    (hne : c ∉ dts.map Prod.fst) :
    getColVals (applyDtypes coerce df dts) c = getColVals df c := by
  induction dts generalizing df with
  | nil => rfl
  | cons cd rest ih =>
    obtain ⟨c₁, d₁⟩ := cd
    have hfc : c ≠ c₁ := by
      intro he
      apply hne
      rw [he]
      simp
    have hne' : c ∉ rest.map Prod.fst := fun h => hne (by simp [h])
    rw [applyDtypes]
    by_cases hc : df.cols.contains c₁
    · rw [if_pos hc]
      cases hm : (getColVals df c₁).mapM (coerce d₁) with
      | none => exact ih df hcols hwf hne'
      | some vals =>
        have hv : vals.length = df.rows.length := by
          have := mapM_option_length _ _ _ hm
          simpa [getColVals] using this
        show getColVals (applyDtypes coerce (setColVals df c₁ vals) rest) c =
          getColVals df c
        rw [ih (setColVals df c₁ vals) hcols
          (setColVals_wf df c₁ vals hwf) hne']
        exact getColVals_setColVals_other df c₁ c vals hfc hcols hwf hv
    · rw [if_neg hc]
      exact ih df hcols hwf hne'

theorem applyDtypes_listed_col (coerce : CoerceFn) (df : DataFrame)
    (dts : List (String × String))
    (hcols : df.cols.Nodup)
    (hwf : ∀ r ∈ df.rows, r.length = df.cols.length)
    (hnd : (dts.map Prod.fst).Nodup) :
    ∀ cd ∈ dts, cd.1 ∈ df.cols →
      getColVals (applyDtypes coerce df dts) cd.1 =
        (match (getColVals df cd.1).mapM (coerce cd.2) with
         | some vals => vals
         | none => getColVals df cd.1) := by
  induction dts generalizing df with
  | nil =>
    intro cd hcd
    cases hcd
  | cons hd rest ih =>
    obtain ⟨c₁, d₁⟩ := hd
    intro cd hcd hmem
    have hnds : c₁ ∉ rest.map Prod.fst ∧ (rest.map Prod.fst).Nodup := by
      rw [List.map_cons] at hnd
      exact List.nodup_cons.mp hnd
    obtain ⟨hc₁nr, hndr⟩ := hnds
    obtain ⟨c₂, d₂⟩ := cd
    rcases List.mem_cons.mp hcd with heq | hcdr
    · injection heq with h1 h2
      subst h1
      subst h2
      have hc : df.cols.contains c₂ = true := List.elem_iff.mpr hmem
      show getColVals (applyDtypes coerce df ((c₂, d₂) :: rest)) c₂ =
        match (getColVals df c₂).mapM (coerce d₂) with
        | some vals => vals
        | none => getColVals df c₂
      rw [applyDtypes, if_pos hc]
      cases hm : (getColVals df c₂).mapM (coerce d₂) with
      | some vals =>
        have hv : vals.length = df.rows.length := by
          have := mapM_option_length _ _ _ hm
          simpa [getColVals] using this
        show getColVals (applyDtypes coerce (setColVals df c₂ vals) rest) c₂ =
          vals
        rw [applyDtypes_col_untouched coerce (setColVals df c₂ vals) rest c₂
          hcols (setColVals_wf df c₂ vals hwf) hc₁nr]
        exact getColVals_setColVals_self df c₂ vals hmem hwf hv
      | none =>
        show getColVals (applyDtypes coerce df rest) c₂ = getColVals df c₂
        exact applyDtypes_col_untouched coerce df rest c₂ hcols hwf hc₁nr
    · have hcne : c₂ ≠ c₁ := by
        intro he
        apply hc₁nr
        rw [← he]
        exact List.mem_map_of_mem Prod.fst hcdr
      rw [applyDtypes]
      by_cases hc : df.cols.contains c₁
      · rw [if_pos hc]
        cases hm : (getColVals df c₁).mapM (coerce d₁) with
        | some vals =>
          have hv : vals.length = df.rows.length := by
            have := mapM_option_length _ _ _ hm
            simpa [getColVals] using this
          have hcolval : getColVals (setColVals df c₁ vals) (c₂, d₂).1 =
              getColVals df (c₂, d₂).1 :=
            getColVals_setColVals_other df c₁ c₂ vals hcne hcols hwf hv
          have hih := ih (setColVals df c₁ vals) hcols
            (setColVals_wf df c₁ vals hwf) hndr (c₂, d₂) hcdr hmem
          rw [hcolval] at hih
          exact hih
        | none => exact ih df hcols hwf hndr (c₂, d₂) hcdr hmem
      · rw [if_neg hc]
        exact ih df hcols hwf hndr (c₂, d₂) hcdr hmem

/-- C8: the data-types stage never fails the batch (each per-column
`astype` is wrapped in try/except), never adds or removes columns, keeps
the record count, and coerces each listed column independently: a
listed column's final content depends only on its own coercion outcome
(converted if the whole column coerces, left unconverted otherwise),
regardless of failures in other columns; unlisted columns are
untouched. -/
theorem c8_dtype_coercion_per_column (coerce : CoerceFn) (df : DataFrame)
    (dts : List (String × String))
    (hwf : ∀ r ∈ df.rows, r.length = df.cols.length)
    (hcols : df.cols.Nodup) (hnd : (dts.map Prod.fst).Nodup) :
    validate_data coerce df { data_types := some dts } =
        .ok (applyDtypes coerce df dts) ∧
      (applyDtypes coerce df dts).cols = df.cols ∧
      (applyDtypes coerce df dts).rows.length = df.rows.length ∧
      (∀ cd ∈ dts, cd.1 ∈ df.cols →
        getColVals (applyDtypes coerce df dts) cd.1 =
          (match (getColVals df cd.1).mapM (coerce cd.2) with
           | some vals => vals
           | none => getColVals df cd.1)) ∧
      ∀ c, c ∉ dts.map Prod.fst →
        getColVals (applyDtypes coerce df dts) c = getColVals df c :=
  ⟨rfl, applyDtypes_cols coerce df dts, applyDtypes_rows_length coerce df dts,
    applyDtypes_listed_col coerce df dts hcols hwf hnd,
    fun c hc => applyDtypes_col_untouched coerce df dts c hcols hwf hc⟩

/-- Witness for C8: a cast that fails on strings, applied to columns `A`
(ints, succeeds) and `B` (a string, fails): the stage still returns the
batch. -/
theorem c8_witness :
    (∀ r ∈ ([[Value.int 1, Value.str "x"]] : List Row), r.length = 2) ∧
      (["A", "B"] : List String).Nodup ∧
      validate_data (fun _ v => match v with | .str _ => none | v => some v)
          ⟨["A", "B"], [[.int 1, .str "x"]]⟩
          { data_types := some [("A", "int"), ("B", "int")] } =
        .ok (applyDtypes
          (fun _ v => match v with | .str _ => none | v => some v)
          ⟨["A", "B"], [[.int 1, .str "x"]]⟩ [("A", "int"), ("B", "int")]) :=
  ⟨by decide, by decide,
    (c8_dtype_coercion_per_column
        (fun _ v => match v with | .str _ => none | v => some v)
        ⟨["A", "B"], [[.int 1, .str "x"]]⟩ [("A", "int"), ("B", "int")]
        (by decide) (by decide) (by decide)).1⟩

/-! ### Helper lemmas about rounding and the quality score (C1) -/

theorem rat_floor_eq (q : ℚ) : Rat.floor q = ⌊q⌋ := by
  rw [Rat.floor_def', Rat.floor_def]

theorem rhe_low (q : ℚ) (f : ℤ) (h1 : (f : ℚ) ≤ q) (h2 : q < f + 1/2) :
    rhe q = f := by
  have hfl : Rat.floor q = f := by
    rw [rat_floor_eq]
    exact Int.floor_eq_iff.mpr ⟨h1, by linarith⟩
  simp only [rhe, hfl]
  rw [if_pos (by push_cast; linarith)]

theorem rhe_high (q : ℚ) (f : ℤ) (h1 : (f : ℚ) + 1/2 < q) (h2 : q < f + 1) :
    rhe q = f + 1 := by
  have hfl : Rat.floor q = f := by
    rw [rat_floor_eq]
    exact Int.floor_eq_iff.mpr ⟨by linarith, h2⟩
  simp only [rhe, hfl]
  rw [if_neg (by push_cast; linarith), if_pos (by push_cast; linarith)]

theorem rhe_nonneg (q : ℚ) (h : 0 ≤ q) : 0 ≤ rhe q := by
  have h0 : (0 : ℤ) ≤ Rat.floor q := by
    rw [rat_floor_eq]
    exact Int.floor_nonneg.mpr h
  simp only [rhe]
  split_ifs <;> omega

theorem rhe_le (q : ℚ) (m : ℤ) (h : q ≤ (m : ℚ)) : rhe q ≤ m := by
  have hfl : (Rat.floor q : ℚ) ≤ q := by
    rw [rat_floor_eq]
    exact Int.floor_le q
  have hflm : Rat.floor q ≤ m := by
    rw [rat_floor_eq]
    calc ⌊q⌋ ≤ ⌊(m : ℚ)⌋ := Int.floor_le_floor h
      _ = m := Int.floor_intCast m
  simp only [rhe]
  split_ifs with h1 h2 h3
  · exact hflm
  · have hlt : (Rat.floor q : ℚ) < (m : ℚ) := by linarith
    have := Int.cast_lt.mp hlt
    omega
  · exact hflm
  · have heq : q - Rat.floor q = 1/2 := le_antisymm (not_lt.mp h2) (not_lt.mp h1)
    have hlt : (Rat.floor q : ℚ) < (m : ℚ) := by linarith
    have := Int.cast_lt.mp hlt
    omega

theorem round2_bounds (q : ℚ) (h0 : 0 ≤ q) (h1 : q ≤ 100) :
    0 ≤ round2 q ∧ round2 q ≤ 100 := by
  have hn : 0 ≤ rhe (q * 100) := rhe_nonneg _ (by linarith)
  have hl : rhe (q * 100) ≤ 10000 := rhe_le _ 10000 (by push_cast; linarith)
  constructor
  · rw [round2]
    have : (0 : ℚ) ≤ (rhe (q * 100) : ℚ) := by exact_mod_cast hn
    positivity
  · rw [round2, div_le_iff (by norm_num : (0:ℚ) < 100)]
    have : ((rhe (q * 100) : ℚ)) ≤ 10000 := by exact_mod_cast hl
    linarith

/-- C1 amended: because `enrich_data` computes the quality score on the
frame to which `PROCESSED_AT` (never null) has already been added, each
record's `DATA_QUALITY_SCORE` is `round((k+1)/(n+1)·100, 2)` — not
`round(k/n·100, 2)` — where `k` is the number of non-null fields among
the record's original `n` fields; the score still lies in [0, 100].
(Stated for batches that do not already carry the enrichment fields.) -/
theorem c1_quality_score_shifted (df : DataFrame) (t : ℕ)
    (hwf : ∀ r ∈ df.rows, r.length = df.cols.length)
    (hpa : "PROCESSED_AT" ∉ df.cols) (hdq : "DATA_QUALITY_SCORE" ∉ df.cols)
    (i : ℕ) (hi : i < df.rows.length) :
    cellAt (enrich_data df t).cols "DATA_QUALITY_SCORE"
        ((enrich_data df t).rows.getD i []) =
      .rat (round2 ((((df.rows.getD i []).countP notNull + 1 : ℕ) : ℚ) /
        ((df.cols.length + 1 : ℕ) : ℚ) * 100)) ∧
      0 ≤ round2 ((((df.rows.getD i []).countP notNull + 1 : ℕ) : ℚ) /
        ((df.cols.length + 1 : ℕ) : ℚ) * 100) ∧
      round2 ((((df.rows.getD i []).countP notNull + 1 : ℕ) : ℚ) /
        ((df.cols.length + 1 : ℕ) : ℚ) * 100) ≤ 100 := by
  have hcpa : ¬ (df.cols.contains "PROCESSED_AT" = true) :=
    fun h => hpa (List.elem_iff.mp h)
  set vals1 := df.rows.map (fun _ => Value.timestamp t) with hv1
  set d1 := addCol df "PROCESSED_AT" vals1 with hd1
  have hv1len : vals1.length = df.rows.length := List.length_map _ _
  have hd1len : d1.rows.length = df.rows.length :=
    addCol_rows_length _ _ _ hv1len
  have hwf1 : ∀ r ∈ d1.rows, r.length = d1.cols.length :=
    addCol_wf _ _ _ hwf hv1len
  have hv2len : (calculate_quality_score d1).length = d1.rows.length :=
    List.length_map _ _
  have hE : enrich_data df t =
      addCol d1 "DATA_QUALITY_SCORE" (calculate_quality_score d1) := rfl
  have hd1cols : d1.cols = df.cols ++ ["PROCESSED_AT"] := by
    rw [hd1, addCol, if_neg hcpa]
  have hd1rows : d1.rows =
      List.zipWith (fun r v => r ++ [v]) df.rows vals1 := by
    rw [hd1, addCol, if_neg hcpa]
  have hi1 : i < d1.rows.length := by omega
  have hcell : cellAt (enrich_data df t).cols "DATA_QUALITY_SCORE"
      ((enrich_data df t).rows.getD i []) =
      (calculate_quality_score d1).getD i .null := by
    rw [hE]
    exact addCol_cell_self d1 "DATA_QUALITY_SCORE" _ hwf1 hv2len i hi1
  have hiz : i < (List.zipWith (fun r v => r ++ [v]) df.rows vals1).length := by
    rw [← hd1rows]
    exact hi1
  have hrowi : d1.rows[i] = df.rows[i] ++ [Value.timestamp t] := by
    have hz : d1.rows[i] =
        (List.zipWith (fun r v => r ++ [v]) df.rows vals1)[i] := by
      congr 1
    rw [hz, List.getElem_zipWith]
    congr 1
    simp only [hv1, List.getElem_map]
  have hcount : (d1.rows[i]).countP notNull =
      (df.rows[i]).countP notNull + 1 := by
    rw [hrowi, List.countP_append]
    rfl
  have hq : (calculate_quality_score d1).getD i .null =
      .rat (round2 ((((df.rows.getD i []).countP notNull + 1 : ℕ) : ℚ) /
        ((df.cols.length + 1 : ℕ) : ℚ) * 100)) := by
    have hlen1 : d1.cols.length = df.cols.length + 1 := by
      rw [hd1cols]
      simp
    rw [calculate_quality_score,
      List.getD_eq_getElem _ _ (by rw [List.length_map]; omega),
      List.getElem_map, hcount, hlen1, List.getD_eq_getElem _ _ hi]
  have hk : (df.rows.getD i []).countP notNull ≤ df.cols.length := by
    rw [List.getD_eq_getElem _ _ hi]
    calc (df.rows[i]).countP notNull ≤ (df.rows[i]).length :=
        List.countP_le_length _
      _ = df.cols.length := hwf _ (List.getElem_mem _)
  have hbounds :
      0 ≤ ((((df.rows.getD i []).countP notNull + 1 : ℕ) : ℚ) /
          ((df.cols.length + 1 : ℕ) : ℚ) * 100) ∧
      ((((df.rows.getD i []).countP notNull + 1 : ℕ) : ℚ) /
          ((df.cols.length + 1 : ℕ) : ℚ) * 100) ≤ 100 := by
    have hd : (0 : ℚ) < ((df.cols.length + 1 : ℕ) : ℚ) := by
      push_cast
      positivity
    constructor
    · positivity
    · rw [mul_comm, ← mul_div_assoc, div_le_iff hd]
      have hkq : (((df.rows.getD i []).countP notNull : ℕ) : ℚ) ≤
          ((df.cols.length : ℕ) : ℚ) := by exact_mod_cast hk
      push_cast
      push_cast at hkq
      linarith
  obtain ⟨hb0, hb1⟩ := round2_bounds _ hbounds.1 hbounds.2
  exact ⟨hcell.trans hq, hb0, hb1⟩

/-- C1 counterexample: a record with k = 1 non-null field of n = 2
original fields.  The claim predicts round(100·1/2, 2) = 50.0, but the
code computes the score after `PROCESSED_AT` is added, giving
round(100·2/3, 2) = 66.67. -/
theorem c1_counterexample_score_formula :
    cellAt (enrich_data ⟨["A", "B"], [[.str "x", .null]]⟩ 0).cols
        "DATA_QUALITY_SCORE"
        ((enrich_data ⟨["A", "B"], [[.str "x", .null]]⟩ 0).rows.getD 0 []) ≠
      .rat (round2 (100 * 1 / 2)) := by
  have hL : cellAt (enrich_data ⟨["A", "B"], [[.str "x", .null]]⟩ 0).cols
      "DATA_QUALITY_SCORE"
      ((enrich_data ⟨["A", "B"], [[.str "x", .null]]⟩ 0).rows.getD 0 []) =
      .rat (round2 (((2 : ℕ) : ℚ) / ((3 : ℕ) : ℚ) * 100)) := rfl
  rw [hL]
  simp only [ne_eq, Value.rat.injEq]
  intro h
  have h1 : rhe ((((2 : ℕ) : ℚ) / ((3 : ℕ) : ℚ) * 100) * 100) = 6666 + 1 :=
    rhe_high _ 6666 (by push_cast; norm_num) (by push_cast; norm_num)
  have h2 : rhe ((100 * 1 / 2 : ℚ) * 100) = 5000 :=
    rhe_low _ 5000 (by norm_num) (by norm_num)
  rw [round2, round2, h1, h2] at h
  norm_num at h

/-- Witness for C1 at a concrete record with one null of two original
fields: the score is round(100·(1+1)/(2+1), 2). -/
theorem c1_witness :
    (∀ r ∈ ([[Value.str "x", Value.null]] : List Row), r.length = 2) ∧
      "PROCESSED_AT" ∉ (["A", "B"] : List String) ∧
      "DATA_QUALITY_SCORE" ∉ (["A", "B"] : List String) ∧
      (cellAt (enrich_data ⟨["A", "B"], [[.str "x", .null]]⟩ 7).cols
          "DATA_QUALITY_SCORE"
          ((enrich_data ⟨["A", "B"], [[.str "x", .null]]⟩ 7).rows.getD 0 []) =
        .rat (round2 (((((⟨["A", "B"], [[Value.str "x", Value.null]]⟩ :
              DataFrame).rows.getD 0 []).countP notNull + 1 : ℕ) : ℚ) /
          (((⟨["A", "B"], [[Value.str "x", Value.null]]⟩ :
              DataFrame).cols.length + 1 : ℕ) : ℚ) * 100)) ∧
        0 ≤ round2 (((((⟨["A", "B"], [[Value.str "x", Value.null]]⟩ :
              DataFrame).rows.getD 0 []).countP notNull + 1 : ℕ) : ℚ) /
          (((⟨["A", "B"], [[Value.str "x", Value.null]]⟩ :
              DataFrame).cols.length + 1 : ℕ) : ℚ) * 100) ∧
        round2 (((((⟨["A", "B"], [[Value.str "x", Value.null]]⟩ :
              DataFrame).rows.getD 0 []).countP notNull + 1 : ℕ) : ℚ) /
          (((⟨["A", "B"], [[Value.str "x", Value.null]]⟩ :
              DataFrame).cols.length + 1 : ℕ) : ℚ) * 100) ≤ 100) :=
  ⟨by decide, by decide, by decide,
    c1_quality_score_shifted ⟨["A", "B"], [[.str "x", .null]]⟩ 7
      (by decide) (by decide) (by decide) 0 (by decide)⟩

end ETL
